import Mathlib

/-!
Verification of the network-test-automation-framework core against its
specification.  The Python modules `src/core/base_driver.py`,
`src/core/snapshot_engine.py`, `src/core/validator.py` and
`src/analysis/topology_verifier.py` are shallowly embedded below:
dictionaries become association lists over `String` keys, Python `None`
becomes `Option.none` in the stored-value type, exceptions become
`Except`, and wall-clock timestamps are carried as opaque strings.
-/

namespace NetAuto

/-- A Python `dict[str, V]`: an association list from keys to values.
Lookups take the first binding, mirroring `dict` semantics (real dicts
have unique keys; theorems that need uniqueness take a `Nodup`
hypothesis). -/
abbrev Smap (V : Type) := List (String × V)

/-- Lookup `m.get(k)` at the presence level: `some v` when `k` is bound to `v`,
`none` when the key is absent. -/
def dget {V : Type} (m : Smap V) (k : String) : Option V :=
  (m.find? (fun p => p.1 == k)).map (·.2)

/-- The keys of a map, as a finite set (Python `set(m.keys())`). -/
def keySet {V : Type} (m : Smap V) : Finset String :=
  (m.map (·.1)).toFinset

/-- Executable lexicographic comparison of character lists (Python's
string `<=`): compare position by position by code point. -/
def charsLe : List Char → List Char → Bool
  | [], _ => true
  | _ :: _, [] => false
  | a :: as, b :: bs => if a = b then charsLe as bs else decide (a < b)

/-- Executable lexicographic `<=` on strings. -/
def strLe (a b : String) : Bool := charsLe a.data b.data

/-- The lexicographic order on keys, as a relation (shown below to agree
with the standard order on `String`). -/
def keyLe (a b : String) : Prop := strLe a b = true

instance : DecidableRel keyLe := fun a b =>
  inferInstanceAs (Decidable (strLe a b = true))

/-- Model of `sorted(set(pre.keys()) | set(post.keys()))`: the union of the two
key sets, in lexicographic order. -/
def unionKeys {V : Type} (m₁ m₂ : Smap V) : List String :=
  List.insertionSort keyLe ((m₁.map (·.1) ++ m₂.map (·.1)).dedup)

/-- A stored Python value in a category map is either `None`
(`Option.none`) or a proper value. `pyGet` models `m.get(k)` which
returns `None` both for an absent key and for a key bound to `None`. -/
def pyGet {V : Type} (m : Smap (Option V)) (k : String) : Option V :=
  (dget m k).join

/-- The `action` field of a `DiffEntry`: `"added"`, `"removed"` or
`"changed"`. -/
inductive DiffAction : Type
  | added
  | removed
  | changed
deriving DecidableEq, Repr

/-- The `DiffEntry` dataclass from `base_driver.py`: one difference between two
snapshot fields.  `before`/`after` are Python values, hence `Option V`
with `none` for Python `None` (the dataclass default). -/
structure DiffEntry (V : Type) where
  category : String
  key : String
  action : DiffAction
  before : Option V := none
  after : Option V := none
deriving DecidableEq, Repr

/-- The `Snapshot` dataclass from `base_driver.py`, parametric in the stored value
type `V` (a Python value).  `timestamp` is an opaque ISO-8601 string. -/
structure Snapshot (V : Type) where
  snapshot_id : String
  device : String
  timestamp : String
  bgp_neighbors : Smap V
  interfaces : Smap V
  routing_table : Smap V
  lldp_neighbors : Smap V
  evpn_routes : Smap V
  raw_data : Smap V
deriving DecidableEq, Repr

/-- The `SnapshotDiff` dataclass from `base_driver.py` (its wall-clock `timestamp`
field is omitted from the embedding). -/
structure SnapshotDiff (V : Type) where
  pre_id : String
  post_id : String
  device : String
  diffs : List (DiffEntry V)
deriving DecidableEq, Repr

/-- The per-key branch of `BaseDriver._diff_dicts`, taking the two
presence-level lookups (`key not in pre_data` ↦ first argument `none`,
and symmetrically). -/
def classifyPresence {V : Type} [DecidableEq V] (category key : String) :
    Option (Option V) → Option (Option V) → Option (DiffEntry V)
  | none, some w => some ⟨category, key, .added, none, w⟩
  | some v, none => some ⟨category, key, .removed, v, none⟩
  | some v, some w =>
      if v = w then none else some ⟨category, key, .changed, v, w⟩
  | none, none => none

/-- The per-key branch of `SnapshotEngine._diff_category`, taking
`pre_val = pre_data.get(key)` and `post_val = post_data.get(key)` (so a
key bound to `None` arrives here as `none`). -/
def classifyByNone {V : Type} [DecidableEq V] (category key : String) :
    Option V → Option V → Option (DiffEntry V)
  | none, some w => some ⟨category, key, .added, none, some w⟩
  | some v, none => some ⟨category, key, .removed, some v, none⟩
  | none, none => none
  | some v, some w =>
      if v = w then none else some ⟨category, key, .changed, some v, some w⟩

/-- Method `BaseDriver._diff_dicts`: classify every key of the sorted union by
*presence* (`key not in pre_data` / `key not in post_data`), emitting a
`changed` entry when both sides hold structurally unequal values. -/
def diff_dicts {V : Type} [DecidableEq V] (category : String)
    (pre_data post_data : Smap (Option V)) : List (DiffEntry V) :=
  (unionKeys pre_data post_data).filterMap fun key =>
    classifyPresence category key (dget pre_data key) (dget post_data key)

/-- Method `SnapshotEngine._diff_category`: classify every key of the sorted
union by the *None-ness* of `pre_data.get(key)` / `post_data.get(key)`. -/
def diff_category {V : Type} [DecidableEq V] (category : String)
    (pre_data post_data : Smap (Option V)) : List (DiffEntry V) :=
  (unionKeys pre_data post_data).filterMap fun key =>
    classifyByNone category key (pyGet pre_data key) (pyGet post_data key)

/-- Method `BaseDriver.compare_snapshots`: run `_diff_dicts` over the five
categories in their fixed order and concatenate. -/
def compare_snapshots {V : Type} [DecidableEq V]
    (pre post : Snapshot (Option V)) : SnapshotDiff V :=
  { pre_id := pre.snapshot_id
    post_id := post.snapshot_id
    device := pre.device
    diffs :=
      diff_dicts "bgp_neighbors" pre.bgp_neighbors post.bgp_neighbors ++
      diff_dicts "interfaces" pre.interfaces post.interfaces ++
      diff_dicts "routing_table" pre.routing_table post.routing_table ++
      diff_dicts "lldp_neighbors" pre.lldp_neighbors post.lldp_neighbors ++
      diff_dicts "evpn_routes" pre.evpn_routes post.evpn_routes }

/-- Method `SnapshotEngine.diff`: run `_diff_category` over the five categories
in their fixed order and concatenate. -/
def engine_diff {V : Type} [DecidableEq V]
    (pre post : Snapshot (Option V)) : SnapshotDiff V :=
  { pre_id := pre.snapshot_id
    post_id := post.snapshot_id
    device := pre.device
    diffs :=
      diff_category "bgp_neighbors" pre.bgp_neighbors post.bgp_neighbors ++
      diff_category "interfaces" pre.interfaces post.interfaces ++
      diff_category "routing_table" pre.routing_table post.routing_table ++
      diff_category "lldp_neighbors" pre.lldp_neighbors post.lldp_neighbors ++
      diff_category "evpn_routes" pre.evpn_routes post.evpn_routes }

/-! ### Basic lookup and key-union lemmas -/

theorem dget_eq_none_iff {V : Type} (m : Smap V) (k : String) :
    dget m k = none ↔ k ∉ keySet m := by
  simp only [dget, keySet, Option.map_eq_none', List.find?_eq_none,
    beq_iff_eq, List.mem_toFinset, List.mem_map]
  constructor
  · rintro h ⟨p, hp, rfl⟩
    exact h p hp rfl
  · intro h p hp hpk
    exact h ⟨p, hp, hpk⟩

/-- Relation `charsLe` agrees with the lexicographic strict order on `List Char`:
it holds exactly for `Lex (· < ·)` or equality. -/
theorem charsLe_iff :
    ∀ as bs : List Char, charsLe as bs = true ↔ List.Lex (· < ·) as bs ∨ as = bs
  | [], [] => by simp [charsLe]
  | [], b :: bs => by
      simp only [charsLe, true_iff]
      exact Or.inl List.Lex.nil
  | a :: as, [] => by
      simp only [charsLe, Bool.false_eq_true, false_iff]
      rintro (h | h) <;> cases h
  | a :: as, b :: bs => by
      by_cases hab : a = b
      · subst hab
        have hc : charsLe (a :: as) (a :: bs) = charsLe as bs := by
          simp [charsLe]
        rw [hc, charsLe_iff as bs]
        constructor
        · rintro (h | rfl)
          · exact Or.inl (List.Lex.cons h)
          · exact Or.inr rfl
        · rintro (h | h)
          · cases h with
            | cons h' => exact Or.inl h'
            | rel h' => exact absurd h' (lt_irrefl a)
          · cases h
            exact Or.inr rfl
      · have hc : charsLe (a :: as) (b :: bs) = decide (a < b) := by
          simp [charsLe, hab]
        rw [hc, decide_eq_true_eq]
        constructor
        · intro h; exact Or.inl (List.Lex.rel h)
        · rintro (h | h)
          · cases h with
            | cons h' => exact absurd rfl hab
            | rel h' => exact h'
          · injection h with h1 h2
            exact absurd h1 hab

/-- The executable key order agrees with the standard linear order on
`String`. -/
theorem keyLe_iff (a b : String) : keyLe a b ↔ a ≤ b := by
  rw [String.le_iff_toList_le, le_iff_lt_or_eq]
  exact charsLe_iff a.data b.data

instance : IsTotal String keyLe :=
  ⟨fun a b => by rw [keyLe_iff, keyLe_iff]; exact le_total a b⟩

instance : IsTrans String keyLe :=
  ⟨fun a b c hab hbc => by
    rw [keyLe_iff] at hab hbc ⊢; exact le_trans hab hbc⟩

theorem mem_unionKeys_iff {V : Type} (m₁ m₂ : Smap V) (k : String) :
    k ∈ unionKeys m₁ m₂ ↔ k ∈ keySet m₁ ∨ k ∈ keySet m₂ := by
  simp [unionKeys, List.mem_insertionSort, keySet, List.mem_toFinset]

theorem unionKeys_nodup {V : Type} (m₁ m₂ : Smap V) :
    (unionKeys m₁ m₂).Nodup :=
  (List.perm_insertionSort keyLe _).nodup_iff.mpr (List.nodup_dedup _)

theorem unionKeys_sorted {V : Type} (m₁ m₂ : Smap V) :
    (unionKeys m₁ m₂).Sorted (· ≤ ·) :=
  (List.sorted_insertionSort keyLe _).imp fun h => (keyLe_iff _ _).mp h

theorem not_mem_unionKeys {V : Type} (m₁ m₂ : Smap V) (k : String)
    (h : k ∉ unionKeys m₁ m₂) : dget m₁ k = none ∧ dget m₂ k = none := by
  rw [mem_unionKeys_iff] at h
  push_neg at h
  exact ⟨(dget_eq_none_iff _ _).mpr h.1, (dget_eq_none_iff _ _).mpr h.2⟩

/-- The classifiers only emit entries carrying their own key and
category. -/
theorem classifyPresence_key {V : Type} [DecidableEq V]
    (category key : String) (v? w? : Option (Option V)) (e : DiffEntry V)
    (h : classifyPresence category key v? w? = some e) :
    e.key = key ∧ e.category = category := by
  cases v? <;> cases w? <;> simp only [classifyPresence] at h
  · cases h
  · cases h; exact ⟨rfl, rfl⟩
  · cases h; exact ⟨rfl, rfl⟩
  · split at h
    · cases h
    · cases h; exact ⟨rfl, rfl⟩

theorem classifyByNone_key {V : Type} [DecidableEq V]
    (category key : String) (v? w? : Option V) (e : DiffEntry V)
    (h : classifyByNone category key v? w? = some e) :
    e.key = key ∧ e.category = category := by
  cases v? <;> cases w? <;> simp only [classifyByNone] at h
  · cases h
  · cases h; exact ⟨rfl, rfl⟩
  · cases h; exact ⟨rfl, rfl⟩
  · split at h
    · cases h
    · cases h; exact ⟨rfl, rfl⟩

/-- Filtering a key-indexed `filterMap` down to one key `k` recovers
exactly the classification of `k` (a singleton or nothing), provided the
iterated key list has no duplicates. -/
theorem filterMap_filter_key {V : Type} (f : String → Option (DiffEntry V))
    (hf : ∀ k e, f k = some e → e.key = k) :
    ∀ (l : List String), l.Nodup → ∀ k : String,
      (l.filterMap f).filter (fun e => e.key == k) =
        if k ∈ l then (f k).toList else [] := by
  intro l
  induction l with
  | nil => intro _ k; simp
  | cons a l ih =>
    intro hnd k
    have hnd' : l.Nodup := hnd.of_cons
    have ha : a ∉ l := (List.nodup_cons.mp hnd).1
    rcases h : f a with _ | e
    · rw [List.filterMap_cons_none h, ih hnd' k]
      by_cases hk : k = a
      · subst hk
        simp [ha, h]
      · simp [List.mem_cons, hk]
    · rw [List.filterMap_cons_some h]
      have hkey : e.key = a := hf a e h
      by_cases hk : k = a
      · subst hk
        rw [List.filter_cons_of_pos (by simp [hkey]), ih hnd' k]
        simp [ha, h]
      · rw [List.filter_cons_of_neg (by simp [hkey, Ne.symm hk]), ih hnd' k]
        simp [List.mem_cons, hk]

/-- Per-key content of `_diff_dicts`: restricted to any single key, the
diff is exactly the presence-based classification of that key. -/
theorem diff_dicts_filter_key {V : Type} [DecidableEq V]
    (category : String) (m₁ m₂ : Smap (Option V)) (k : String) :
    (diff_dicts category m₁ m₂).filter (fun e => e.key == k) =
      (classifyPresence category k (dget m₁ k) (dget m₂ k)).toList := by
  rw [diff_dicts, filterMap_filter_key _
    (fun k e h => (classifyPresence_key category k _ _ e h).1)
    _ (unionKeys_nodup m₁ m₂) k]
  by_cases hk : k ∈ unionKeys m₁ m₂
  · simp [hk]
  · obtain ⟨h₁, h₂⟩ := not_mem_unionKeys m₁ m₂ k hk
    simp [hk, h₁, h₂, classifyPresence]

/-- Per-key content of `_diff_category`: restricted to any single key,
the diff is exactly the None-ness-based classification of that key. -/
theorem diff_category_filter_key {V : Type} [DecidableEq V]
    (category : String) (m₁ m₂ : Smap (Option V)) (k : String) :
    (diff_category category m₁ m₂).filter (fun e => e.key == k) =
      (classifyByNone category k (pyGet m₁ k) (pyGet m₂ k)).toList := by
  rw [diff_category, filterMap_filter_key _
    (fun k e h => (classifyByNone_key category k _ _ e h).1)
    _ (unionKeys_nodup m₁ m₂) k]
  by_cases hk : k ∈ unionKeys m₁ m₂
  · simp [hk]
  · obtain ⟨h₁, h₂⟩ := not_mem_unionKeys m₁ m₂ k hk
    simp [hk, pyGet, h₁, h₂, classifyByNone]

/-- The keys of a per-category diff form a sublist of the sorted union,
hence are themselves lexicographically sorted. -/
theorem filterMap_keys_sublist {V : Type} (f : String → Option (DiffEntry V))
    (hf : ∀ k e, f k = some e → e.key = k) :
    ∀ l : List String, ((l.filterMap f).map (·.key)).Sublist l := by
  intro l
  induction l with
  | nil => simp
  | cons a l ih =>
    rcases h : f a with _ | e
    · rw [List.filterMap_cons_none h]
      exact ih.cons a
    · rw [List.filterMap_cons_some h]
      simpa [hf a e h] using ih.cons₂ a

theorem diff_dicts_keys_sorted {V : Type} [DecidableEq V]
    (category : String) (m₁ m₂ : Smap (Option V)) :
    ((diff_dicts category m₁ m₂).map (·.key)).Sorted (· ≤ ·) :=
  (unionKeys_sorted m₁ m₂).sublist
    (filterMap_keys_sublist _
      (fun k e h => (classifyPresence_key category k _ _ e h).1) _)

theorem diff_category_keys_sorted {V : Type} [DecidableEq V]
    (category : String) (m₁ m₂ : Smap (Option V)) :
    ((diff_category category m₁ m₂).map (·.key)).Sorted (· ≤ ·) :=
  (unionKeys_sorted m₁ m₂).sublist
    (filterMap_keys_sublist _
      (fun k e h => (classifyByNone_key category k _ _ e h).1) _)

/-- Classifying identical lookups emits nothing, so any diff of a map
against itself is empty. -/
theorem diff_dicts_self {V : Type} [DecidableEq V]
    (category : String) (m : Smap (Option V)) :
    diff_dicts category m m = [] := by
  rw [diff_dicts, List.filterMap_eq_nil_iff]
  intro k _
  rcases dget m k with _ | v <;> simp [classifyPresence]

theorem diff_category_self {V : Type} [DecidableEq V]
    (category : String) (m : Smap (Option V)) :
    diff_category category m m = [] := by
  rw [diff_category, List.filterMap_eq_nil_iff]
  intro k _
  rcases pyGet m k with _ | v <;> simp [classifyByNone]

/-! ### Relating the two diff implementations -/

/-- No key of the map is bound to Python `None`. -/
def noNone {V : Type} (m : Smap (Option V)) : Prop := ∀ p ∈ m, p.2 ≠ none

instance {V : Type} [DecidableEq V] (m : Smap (Option V)) :
    Decidable (noNone m) :=
  inferInstanceAs (Decidable (∀ p ∈ m, p.2 ≠ none))

/-- None of the five category maps of the snapshot stores `None`. -/
def snapNoNone {V : Type} (s : Snapshot (Option V)) : Prop :=
  noNone s.bgp_neighbors ∧ noNone s.interfaces ∧ noNone s.routing_table ∧
    noNone s.lldp_neighbors ∧ noNone s.evpn_routes

instance {V : Type} [DecidableEq V] (s : Snapshot (Option V)) :
    Decidable (snapNoNone s) :=
  inferInstanceAs (Decidable (_ ∧ _ ∧ _ ∧ _ ∧ _))

/-- On a map without stored `None`s, the presence-level lookup is the
`.get` lookup wrapped in `some`. -/
theorem dget_eq_map_pyGet {V : Type} {m : Smap (Option V)}
    (h : noNone m) (k : String) : dget m k = (pyGet m k).map some := by
  rcases hd : dget m k with _ | v
  · simp [pyGet, hd]
  · have hv : v ≠ none := by
      unfold dget at hd
      rcases hfind : m.find? (fun p => p.1 == k) with _ | p
      · rw [hfind] at hd; cases hd
      · rw [hfind] at hd
        simp only [Option.map_some', Option.some.injEq] at hd
        exact hd ▸ h p (List.mem_of_find?_eq_some hfind)
    rcases v with _ | w
    · exact absurd rfl hv
    · simp [pyGet, hd]

theorem classifyPresence_map_some {V : Type} [DecidableEq V]
    (category k : String) (v? w? : Option V) :
    classifyPresence category k (v?.map some) (w?.map some) =
      classifyByNone category k v? w? := by
  rcases v? with _ | v <;> rcases w? with _ | w <;>
    simp only [Option.map_some', Option.map_none', classifyPresence,
      classifyByNone]
  by_cases hvw : v = w <;> simp [hvw]

/-- Without stored `None` values the two per-category diff algorithms
agree. -/
theorem diff_category_eq_diff_dicts {V : Type} [DecidableEq V]
    (category : String) (m₁ m₂ : Smap (Option V))
    (h₁ : noNone m₁) (h₂ : noNone m₂) :
    diff_category category m₁ m₂ = diff_dicts category m₁ m₂ := by
  unfold diff_dicts diff_category
  refine List.filterMap_congr fun k _ => ?_
  rw [dget_eq_map_pyGet h₁ k, dget_eq_map_pyGet h₂ k,
    classifyPresence_map_some]

/-! ### Concrete snapshots used in counterexamples and witnesses -/

/-- A snapshot with empty category maps. -/
def sEmpty : Snapshot (Option Nat) :=
  ⟨"pre", "dev1", "2024-01-01T00:00:00", [], [], [], [], [], []⟩

/-- A snapshot whose BGP map binds one key to Python `None`. -/
def sNoneBgp : Snapshot (Option Nat) :=
  { sEmpty with snapshot_id := "post", bgp_neighbors := [("10.0.0.1", none)] }

/-- A snapshot whose BGP map binds `"k"` to `None`. -/
def sPreNoneK : Snapshot (Option Nat) :=
  { sEmpty with bgp_neighbors := [("k", none)] }

/-- A snapshot whose BGP map binds `"k"` to the value `5`. -/
def sPostValK : Snapshot (Option Nat) :=
  { sEmpty with snapshot_id := "post", bgp_neighbors := [("k", some 5)] }

/-- A snapshot whose BGP map binds `"p"` to `1`. -/
def sPre1 : Snapshot (Option Nat) :=
  { sEmpty with bgp_neighbors := [("p", some 1)] }

/-- A snapshot whose BGP map binds `"p"` to `2`. -/
def sPost2 : Snapshot (Option Nat) :=
  { sEmpty with snapshot_id := "post", bgp_neighbors := [("p", some 2)] }

/-! ### Claim C1 -/

/-- C1 (amended): the computed diff processes the five categories in the
fixed order `bgp_neighbors`, `interfaces`, `routing_table`,
`lldp_neighbors`, `evpn_routes`; within a category it iterates the
lexicographically sorted union of keys, and — for
`BaseDriver._diff_dicts` — emits for each key exactly one entry
classified by *presence* (`added` iff only in post, `removed` iff only
in pre, `changed` iff in both with structurally unequal values, nothing
iff equal or in neither), so `diff(S, S)` is empty.  For
`SnapshotEngine._diff_category` the same classification holds provided
no stored value is `None` (its classification is by value None-ness,
see C10). -/
theorem c1_diff_classification {V : Type} [DecidableEq V]
    (pre post : Snapshot (Option V)) (category k : String)
    (m₁ m₂ : Smap (Option V)) :
    ((compare_snapshots pre post).diffs =
        diff_dicts "bgp_neighbors" pre.bgp_neighbors post.bgp_neighbors ++
        diff_dicts "interfaces" pre.interfaces post.interfaces ++
        diff_dicts "routing_table" pre.routing_table post.routing_table ++
        diff_dicts "lldp_neighbors" pre.lldp_neighbors post.lldp_neighbors ++
        diff_dicts "evpn_routes" pre.evpn_routes post.evpn_routes)
    ∧ ((diff_dicts category m₁ m₂).map (·.key)).Sorted (· ≤ ·)
    ∧ (∀ w, dget m₁ k = none → dget m₂ k = some w →
        (diff_dicts category m₁ m₂).filter (fun e => e.key == k) =
          [⟨category, k, .added, none, w⟩])
    ∧ (∀ v, dget m₁ k = some v → dget m₂ k = none →
        (diff_dicts category m₁ m₂).filter (fun e => e.key == k) =
          [⟨category, k, .removed, v, none⟩])
    ∧ (∀ v w, dget m₁ k = some v → dget m₂ k = some w → v ≠ w →
        (diff_dicts category m₁ m₂).filter (fun e => e.key == k) =
          [⟨category, k, .changed, v, w⟩])
    ∧ (∀ v, dget m₁ k = some v → dget m₂ k = some v →
        (diff_dicts category m₁ m₂).filter (fun e => e.key == k) = [])
    ∧ (dget m₁ k = none → dget m₂ k = none →
        (diff_dicts category m₁ m₂).filter (fun e => e.key == k) = [])
    ∧ (compare_snapshots pre pre).diffs = []
    ∧ (engine_diff pre pre).diffs = []
    ∧ (noNone m₁ → noNone m₂ →
        diff_category category m₁ m₂ = diff_dicts category m₁ m₂) := by
  refine ⟨rfl, diff_dicts_keys_sorted category m₁ m₂, ?_, ?_, ?_, ?_, ?_,
    ?_, ?_, fun h₁ h₂ => diff_category_eq_diff_dicts category m₁ m₂ h₁ h₂⟩
  · intro w h₁ h₂
    rw [diff_dicts_filter_key, h₁, h₂]
    rfl
  · intro v h₁ h₂
    rw [diff_dicts_filter_key, h₁, h₂]
    rfl
  · intro v w h₁ h₂ hvw
    rw [diff_dicts_filter_key, h₁, h₂]
    simp [classifyPresence, hvw]
  · intro v h₁ h₂
    rw [diff_dicts_filter_key, h₁, h₂]
    simp [classifyPresence]
  · intro h₁ h₂
    rw [diff_dicts_filter_key, h₁, h₂]
    rfl
  · simp [compare_snapshots, diff_dicts_self]
  · simp [engine_diff, diff_category_self]

/-- C1 counterexample to the claim as stated: in `SnapshotEngine.diff`,
a key present in *both* snapshots (bound to `None` in pre and to `5` in
post, hence with structurally unequal values) is emitted as `added`, not
as the `changed` the claim requires for a key present on both sides. -/
theorem c1_counterexample :
    ("k" ∈ sPreNoneK.bgp_neighbors.map (·.1)
      ∧ "k" ∈ sPostValK.bgp_neighbors.map (·.1)
      ∧ dget sPreNoneK.bgp_neighbors "k" ≠ dget sPostValK.bgp_neighbors "k")
    ∧ (engine_diff sPreNoneK sPostValK).diffs =
        [⟨"bgp_neighbors", "k", .added, none, some 5⟩]
    ∧ DiffAction.added ≠ DiffAction.changed := by
  decide

/-- Witness for C1: the `added` clause applied at a concrete input. -/
theorem c1_witness :
    (diff_dicts "bgp_neighbors" ([] : Smap (Option Nat))
        [("10.0.0.1", some 1)]).filter (fun e => e.key == "10.0.0.1") =
      [⟨"bgp_neighbors", "10.0.0.1", .added, none, some 1⟩] :=
  (c1_diff_classification sEmpty sEmpty "bgp_neighbors" "10.0.0.1"
    [] [("10.0.0.1", some 1)]).2.2.1 (some 1) rfl rfl

/-! ### Claim C2 -/

/-- C2 counterexample to the claim as stated: on a pair of snapshots
whose post-BGP map binds a key to `None`, `BaseDriver.compare_snapshots`
emits an `added` entry while `SnapshotEngine.diff` emits nothing, so the
two diffs differ. -/
theorem c2_counterexample :
    compare_snapshots sEmpty sNoneBgp ≠ engine_diff sEmpty sNoneBgp := by
  decide

/-- C2 (amended): `BaseDriver.compare_snapshots` and
`SnapshotEngine.diff` produce the same ordered diff — identical ids,
device, categories, keys, actions and before/after payloads — for all
snapshots none of whose category maps binds a key to `None`. -/
theorem c2_compare_eq_engine_diff {V : Type} [DecidableEq V]
    (pre post : Snapshot (Option V))
    (h₁ : snapNoNone pre) (h₂ : snapNoNone post) :
    compare_snapshots pre post = engine_diff pre post := by
  obtain ⟨a₁, b₁, c₁, d₁, e₁⟩ := h₁
  obtain ⟨a₂, b₂, c₂, d₂, e₂⟩ := h₂
  unfold compare_snapshots engine_diff
  rw [diff_category_eq_diff_dicts _ _ _ a₁ a₂,
    diff_category_eq_diff_dicts _ _ _ b₁ b₂,
    diff_category_eq_diff_dicts _ _ _ c₁ c₂,
    diff_category_eq_diff_dicts _ _ _ d₁ d₂,
    diff_category_eq_diff_dicts _ _ _ e₁ e₂]

/-- Witness for C2's amended theorem at concrete `None`-free
snapshots. -/
theorem c2_witness : compare_snapshots sPre1 sPost2 = engine_diff sPre1 sPost2 :=
  c2_compare_eq_engine_diff sPre1 sPost2 (by decide) (by decide)

/-! ### Claim C10 -/

/-- C10: `SnapshotEngine._diff_category` classifies by None-ness of the
looked-up value, so a key bound to `None` behaves exactly like an absent
key: `None → value` is `added`, `value → None` is `removed`, and a key
that is (present with `None`) / absent in any combination produces no
entry. -/
theorem c10_engine_none_semantics {V : Type} [DecidableEq V]
    (category k : String) (m₁ m₂ : Smap (Option V)) :
    (∀ w, dget m₁ k = some none → dget m₂ k = some (some w) →
      (diff_category category m₁ m₂).filter (fun e => e.key == k) =
        [⟨category, k, .added, none, some w⟩])
    ∧ (∀ v, dget m₁ k = some (some v) → dget m₂ k = some none →
      (diff_category category m₁ m₂).filter (fun e => e.key == k) =
        [⟨category, k, .removed, some v, none⟩])
    ∧ (dget m₁ k = some none → dget m₂ k = none →
      (diff_category category m₁ m₂).filter (fun e => e.key == k) = [])
    ∧ (dget m₁ k = none → dget m₂ k = some none →
      (diff_category category m₁ m₂).filter (fun e => e.key == k) = [])
    ∧ (dget m₁ k = some none → dget m₂ k = some none →
      (diff_category category m₁ m₂).filter (fun e => e.key == k) = []) := by
  refine ⟨?_, ?_, ?_, ?_, ?_⟩
  · intro w h₁ h₂
    rw [diff_category_filter_key, pyGet, pyGet, h₁, h₂]
    rfl
  · intro v h₁ h₂
    rw [diff_category_filter_key, pyGet, pyGet, h₁, h₂]
    rfl
  · intro h₁ h₂
    rw [diff_category_filter_key, pyGet, pyGet, h₁, h₂]
    rfl
  · intro h₁ h₂
    rw [diff_category_filter_key, pyGet, pyGet, h₁, h₂]
    rfl
  · intro h₁ h₂
    rw [diff_category_filter_key, pyGet, pyGet, h₁, h₂]
    rfl

/-- Witness for C10: a pre-side `None` turning into `7` is reported as
`added`. -/
theorem c10_witness :
    (diff_category "routing_table" [("r", (none : Option Nat))]
        [("r", some 7)]).filter (fun e => e.key == "r") =
      [⟨"routing_table", "r", .added, none, some 7⟩] :=
  (c10_engine_none_semantics "routing_table" "r"
    [("r", none)] [("r", some 7)]).1 7 rfl rfl

/-! ### Claim C3: the retry wrapper -/

/-- Constant `MAX_RETRY_ATTEMPTS` from `base_driver.py`. -/
def MAX_RETRY_ATTEMPTS : Nat := 3

/-- Constant `RETRY_BACKOFF_BASE` from `base_driver.py` (2.0, exactly
representable, modelled as a rational). -/
def RETRY_BACKOFF_BASE : ℚ := 2

/-- The loop body of `BaseDriver._retry`.  `f n` is the outcome of the
`n`-th invocation of the wrapped callable (1-indexed), `attempt` the
current attempt number and `remaining` the number of attempts still
allowed after this one (`max_attempts - attempt`).  Returns the final
outcome, the number of invocations performed, and the list of back-off
sleeps (`backoff_base ** attempt`) executed, in order. -/
def retryRun {E A : Type} (f : Nat → Except E A) (base : ℚ) :
    Nat → Nat → Except E A × Nat × List ℚ
  | attempt, remaining =>
    match f attempt, remaining with
    | .ok a, _ => (.ok a, 1, [])
    | .error e, 0 => (.error e, 1, [])
    | .error _, r + 1 =>
      let res := retryRun f base (attempt + 1) r
      (res.1, res.2.1 + 1, base ^ attempt :: res.2.2)
  termination_by _ remaining => remaining

/-- Method `BaseDriver._retry(func, max_attempts, backoff_base)`: attempts run
from 1 to `max_attempts`; a failed non-final attempt sleeps
`backoff_base ** attempt`; exhaustion re-raises the last error. -/
def retry {E A : Type} (f : Nat → Except E A) (max_attempts : Nat)
    (backoff_base : ℚ) : Except E A × Nat × List ℚ :=
  retryRun f backoff_base 1 (max_attempts - 1)

/-- Splitting off the head of a shifted sleep list. -/
theorem sleep_list_shift (base : ℚ) (a r : Nat) :
    (List.range (r + 1)).map (fun i => base ^ (a + i)) =
      base ^ a :: (List.range r).map fun i => base ^ (a + 1 + i) := by
  rw [List.range_succ_eq_map, List.map_cons, List.map_map]
  refine congrArg₂ _ rfl (List.map_congr_left fun i _ => ?_)
  exact congrArg (base ^ ·) (by omega)

/-- On a callable that fails at every attempt, the loop performs all
remaining attempts, sleeps `base ^ attempt` after each non-final one,
and ends with the error of the final attempt. -/
theorem retryRun_err {E A : Type} (f : Nat → Except E A) (g : Nat → E)
    (base : ℚ) (hf : ∀ n, f n = .error (g n)) :
    ∀ r a, retryRun f base a r =
      (.error (g (a + r)), r + 1, (List.range r).map fun i => base ^ (a + i)) := by
  intro r
  induction r with
  | zero =>
    intro a
    rw [retryRun.eq_def]
    simp [hf a]
  | succ r ih =>
    intro a
    rw [retryRun.eq_def]
    simp only [hf a]
    simp only [ih (a + 1), sleep_list_shift, Prod.mk.injEq]
    exact ⟨congrArg (fun n => (Except.error (g n) : Except E A))
      (show a + 1 + r = a + (r + 1) by omega), trivial⟩

/-- On a callable that first succeeds `j` attempts ahead, the loop
performs exactly `j + 1` invocations and returns the value. -/
theorem retryRun_ok {E A : Type} (f : Nat → Except E A) (g : Nat → E)
    (base : ℚ) (v : A) (k : Nat) (hk : f k = .ok v)
    (hfail : ∀ n, n < k → f n = .error (g n)) :
    ∀ j a r, a + j = k → j ≤ r →
      retryRun f base a r =
        (.ok v, j + 1, (List.range j).map fun i => base ^ (a + i)) := by
  intro j
  induction j with
  | zero =>
    intro a r ha _
    have : a = k := by omega
    subst this
    rw [retryRun.eq_def]
    simp [hk]
  | succ j ih =>
    intro a r ha hr
    have halt : a < k := by omega
    obtain ⟨r', rfl⟩ : ∃ r', r = r' + 1 := ⟨r - 1, by omega⟩
    rw [retryRun.eq_def]
    simp only [hfail a halt]
    simp only [ih (a + 1) r' (by omega) (by omega), sleep_list_shift]

/-- C3: the retry wrapper is attempt-count exact.  With defaults
`max_attempts = 3`, `backoff_base = 2.0`: if the callable raises on
every invocation, it is invoked exactly `max_attempts` times, the
sleeps are `base ^ 1, …, base ^ (max_attempts - 1)` (after each failed
non-final attempt, none after the final one) and the error raised at
the final attempt is re-raised unchanged; if it first succeeds at
attempt `k ≤ max_attempts`, it is invoked exactly `k` times and the
value is returned. -/
theorem c3_retry_exactness {E A : Type} (f : Nat → Except E A)
    (g : Nat → E) (v : A) (max_attempts k : Nat) (base : ℚ) :
    (MAX_RETRY_ATTEMPTS = 3 ∧ RETRY_BACKOFF_BASE = 2)
    ∧ (1 ≤ max_attempts → (∀ n, f n = .error (g n)) →
        retry f max_attempts base =
          (.error (g max_attempts), max_attempts,
            (List.range (max_attempts - 1)).map fun i => base ^ (i + 1)))
    ∧ (1 ≤ k → k ≤ max_attempts → f k = .ok v →
        (∀ n, n < k → f n = .error (g n)) →
        retry f max_attempts base =
          (.ok v, k, (List.range (k - 1)).map fun i => base ^ (i + 1))) := by
  refine ⟨⟨rfl, rfl⟩, ?_, ?_⟩
  · intro hmax hf
    rw [retry, retryRun_err f g base hf (max_attempts - 1) 1]
    have h1 : 1 + (max_attempts - 1) = max_attempts := by omega
    have h2 : max_attempts - 1 + 1 = max_attempts := by omega
    rw [h1, h2]
    exact congrArg _ (congrArg _ (List.map_congr_left fun i _ =>
      congrArg (base ^ ·) (by omega)))
  · intro hk hkm hok hfail
    rw [retry, retryRun_ok f g base v k hok hfail (k - 1) 1
      (max_attempts - 1) (by omega) (by omega)]
    have h2 : k - 1 + 1 = k := by omega
    rw [h2]
    exact congrArg _ (congrArg _ (List.map_congr_left fun i _ =>
      congrArg (base ^ ·) (by omega)))

/-- Witness for C3: a callable failing on attempt 1 and succeeding on
attempt 2, with the default 3 attempts and base 2: invoked twice, one
sleep of 2 seconds, value returned. -/
theorem c3_witness :
    retry (fun n => if n < 2 then .error (toString n) else .ok 42) 3 2 =
      (.ok 42, 2, [(2 : ℚ)]) := by
  have h := (c3_retry_exactness
    (fun n => if n < 2 then .error (toString n) else .ok 42)
    (fun n => toString n) 42 3 2 2).2.2 (by omega) (by omega) rfl
    (fun n hn => by simp [hn])
  simpa using h

/-! ### Claim C5: snapshot file naming -/

/-- Model of `s.replace(old, new)` for a single-character pattern: map every
occurrence of `c` to `r`. -/
def replaceChar (c r : Char) (s : String) : String :=
  ⟨s.data.map fun a => if a = c then r else a⟩

/-- The sanitization of one path component in
`SnapshotEngine._snapshot_path`: `component.replace("/", "_").replace("\\", "_")`. -/
def sanitizeComponent (s : String) : String :=
  replaceChar '\\' '_' (replaceChar '/' '_' s)

/-- Method `SnapshotEngine._snapshot_path`, as the file name relative to the
storage directory: `f"{safe_device}_{safe_id}.json"`. -/
def snapshot_path (device snapshot_id : String) : String :=
  sanitizeComponent device ++ "_" ++ sanitizeComponent snapshot_id ++ ".json"

/-- C5 fails on the code: the naming scheme is *not* injective.  The
distinct pairs `("a", "b_c")` and `("a_b", "c")` both map to
`"a_b_c.json"` (and sanitization itself collides: `("a/b", "c")` maps
there too), so persisting one pair can overwrite the record of a
different pair. -/
theorem c5_path_collision :
    snapshot_path "a" "b_c" = "a_b_c.json"
    ∧ snapshot_path "a_b" "c" = "a_b_c.json"
    ∧ snapshot_path "a/b" "c" = "a_b_c.json"
    ∧ ("a", "b_c") ≠ ("a_b", "c") ∧ ("a/b", "c") ≠ ("a_b", "c") := by
  decide

/-! ### Claim C9: StateValidator.assert_bgp_neighbor_established -/

/-- The `Severity` enum from `validator.py`. -/
inductive Severity : Type
  | critical
  | high
  | medium
  | low
  | info
deriving DecidableEq, Repr

/-- The `ValidationResult` dataclass from `validator.py` (the free-form `details`
payload is carried as the raw neighbor record, when any). -/
structure ValidationResult where
  name : String
  passed : Bool
  message : String
  severity : Severity
  expected : String
  actual : String
  device : String
  details : Smap String
deriving DecidableEq, Repr

/-- Lower-casing a string, character by character (Python `.lower()` on
the ASCII field values used here). -/
def strLower (s : String) : String := ⟨s.data.map Char.toLower⟩

/-- Method `StateValidator.assert_bgp_neighbor_established(bgp_data, peer)`:
a missing peer fails as critical with actual `"not_found"`; otherwise
the peer's `state` field (default `"unknown"`), lower-cased, must equal
`"established"`. -/
def assert_bgp_neighbor_established (device : String)
    (bgp_data : Smap (Smap String)) (peer : String) : ValidationResult :=
  match dget bgp_data peer with
  | none =>
    { name := "bgp_neighbor_established"
      passed := false
      message := "BGP peer " ++ peer ++ " not found in neighbor table"
      severity := .critical
      expected := "established"
      actual := "not_found"
      device := device
      details := [] }
  | some neighbor =>
    let state := strLower ((dget neighbor "state").getD "unknown")
    let passed := state == "established"
    { name := "bgp_neighbor_established"
      passed := passed
      message :=
        if passed then "BGP peer " ++ peer ++ " is " ++ state
        else "BGP peer " ++ peer ++ " expected ESTABLISHED, got " ++ state
      severity := if passed then .info else .critical
      expected := "established"
      actual := state
      device := device
      details := neighbor }

/-- C9: the validator is total and never raises: a missing peer yields
`passed = false`, severity `critical`, actual `"not_found"`; a present
peer passes exactly when its lower-cased state is `"established"`
(severity `info`), and otherwise fails as `critical` with the observed
(lower-cased) state as `actual`. -/
theorem c9_bgp_established_total (device peer : String)
    (bgp_data : Smap (Smap String)) (nb : Smap String) :
    (dget bgp_data peer = none →
      (assert_bgp_neighbor_established device bgp_data peer).passed = false
      ∧ (assert_bgp_neighbor_established device bgp_data peer).severity = .critical
      ∧ (assert_bgp_neighbor_established device bgp_data peer).actual = "not_found")
    ∧ (dget bgp_data peer = some nb →
        (let st := strLower ((dget nb "state").getD "unknown")
         (assert_bgp_neighbor_established device bgp_data peer).actual = st
         ∧ ((assert_bgp_neighbor_established device bgp_data peer).passed = true
              ↔ st = "established")
         ∧ (st = "established" →
              (assert_bgp_neighbor_established device bgp_data peer).severity = .info)
         ∧ (st ≠ "established" →
              (assert_bgp_neighbor_established device bgp_data peer).passed = false
              ∧ (assert_bgp_neighbor_established device bgp_data peer).severity
                  = .critical))) := by
  constructor
  · intro h
    simp [assert_bgp_neighbor_established, h]
  · intro h
    refine ⟨?_, ?_, ?_, ?_⟩
    · simp [assert_bgp_neighbor_established, h]
    · simp [assert_bgp_neighbor_established, h]
    · intro hs
      simp [assert_bgp_neighbor_established, h, hs]
    · intro hs
      constructor
      · simp [assert_bgp_neighbor_established, h, hs]
      · simp [assert_bgp_neighbor_established, h, hs]

/-- Witness for C9: the spec's boundary example — BGP data
`{"10.0.0.3": {"state": "active"}}` yields `passed = false`,
severity `critical`, `actual = "active"`. -/
theorem c9_witness :
    (assert_bgp_neighbor_established "dev1"
        [("10.0.0.3", [("state", "active")])] "10.0.0.3").actual = "active"
    ∧ (assert_bgp_neighbor_established "dev1"
        [("10.0.0.3", [("state", "active")])] "10.0.0.3").passed = false
    ∧ (assert_bgp_neighbor_established "dev1"
        [("10.0.0.3", [("state", "active")])] "10.0.0.3").severity = .critical := by
  have h := (c9_bgp_established_total "dev1" "10.0.0.3"
    [("10.0.0.3", [("state", "active")])] [("state", "active")]).2 rfl
  exact ⟨h.1, (h.2.2.2 (by decide)).1, (h.2.2.2 (by decide)).2⟩

/-! ### Claim C6: BaseDriver.run_health_check -/

/-- Executable `startswith`: prefix test on the character sequence. -/
def charsStartsWith : List Char → List Char → Bool
  | [], _ => true
  | _ :: _, [] => false
  | a :: as, b :: bs => a = b && charsStartsWith as bs

/-- Model of `name.startswith(p)` for strings. -/
def strStartsWith (p s : String) : Bool := charsStartsWith p.data s.data

/-- The fixed exclusion set of `run_health_check`:
`name.startswith(("lo", "Loopback", "Management", "mgmt"))`. -/
def healthExcluded (name : String) : Bool :=
  strStartsWith "lo" name || strStartsWith "Loopback" name ||
    strStartsWith "Management" name || strStartsWith "mgmt" name

/-- The report built by `BaseDriver.run_health_check`: per-category
healthy flag plus the raw collected data, and the overall flag. -/
structure HealthReport where
  bgp_healthy : Bool
  bgp_details : Smap (Smap String)
  interfaces_healthy : Bool
  interfaces_details : Smap (Smap String)
  lldp_healthy : Bool
  lldp_details : Smap (Smap String)
  overall_healthy : Bool
deriving DecidableEq, Repr

/-- Method `BaseDriver.run_health_check`, as a function of the collected data
(each getter having already been run through the retry wrapper). -/
def run_health_check (bgp interfaces lldp : Smap (Smap String)) :
    HealthReport :=
  let bgp_healthy :=
    bgp.all fun p => strLower ((dget p.2 "state").getD "") == "established"
  let iface_healthy :=
    interfaces.all fun p =>
      if healthExcluded p.1 then true
      else strLower ((dget p.2 "oper_status").getD "") == "up"
  let lldp_healthy := decide (0 < lldp.length)
  { bgp_healthy := bgp_healthy
    bgp_details := bgp
    interfaces_healthy := iface_healthy
    interfaces_details := interfaces
    lldp_healthy := lldp_healthy
    lldp_details := lldp
    overall_healthy := bgp_healthy && iface_healthy && lldp_healthy }

/-- C6: `overall_healthy` is `True` iff every BGP peer's lower-cased
state is `established` (vacuously so with zero peers), every
non-excluded interface's lower-cased `oper_status` is `up`, and at
least one LLDP neighbor exists; each sub-flag matches its own condition
and is reported alongside the raw collected data. -/
theorem c6_health_check (bgp interfaces lldp : Smap (Smap String)) :
    ((run_health_check bgp interfaces lldp).overall_healthy = true ↔
      ((∀ p ∈ bgp, strLower ((dget p.2 "state").getD "") = "established")
        ∧ (∀ p ∈ interfaces, healthExcluded p.1 = false →
            strLower ((dget p.2 "oper_status").getD "") = "up")
        ∧ lldp ≠ []))
    ∧ ((run_health_check bgp interfaces lldp).bgp_healthy = true ↔
        ∀ p ∈ bgp, strLower ((dget p.2 "state").getD "") = "established")
    ∧ ((run_health_check bgp interfaces lldp).interfaces_healthy = true ↔
        ∀ p ∈ interfaces, healthExcluded p.1 = false →
          strLower ((dget p.2 "oper_status").getD "") = "up")
    ∧ ((run_health_check bgp interfaces lldp).lldp_healthy = true ↔ lldp ≠ [])
    ∧ (run_health_check bgp interfaces lldp).overall_healthy =
        ((run_health_check bgp interfaces lldp).bgp_healthy
          && (run_health_check bgp interfaces lldp).interfaces_healthy
          && (run_health_check bgp interfaces lldp).lldp_healthy)
    ∧ (run_health_check bgp interfaces lldp).bgp_details = bgp
    ∧ (run_health_check bgp interfaces lldp).interfaces_details = interfaces
    ∧ (run_health_check bgp interfaces lldp).lldp_details = lldp := by
  have hbgp : (run_health_check bgp interfaces lldp).bgp_healthy = true ↔
      ∀ p ∈ bgp, strLower ((dget p.2 "state").getD "") = "established" := by
    simp [run_health_check, List.all_eq_true]
  have hif : (run_health_check bgp interfaces lldp).interfaces_healthy = true ↔
      ∀ p ∈ interfaces, healthExcluded p.1 = false →
        strLower ((dget p.2 "oper_status").getD "") = "up" := by
    simp only [run_health_check, List.all_eq_true]
    refine forall_congr' fun p => forall_congr' fun _ => ?_
    by_cases h : healthExcluded p.1 <;> simp [h]
  have hlldp : (run_health_check bgp interfaces lldp).lldp_healthy = true ↔
      lldp ≠ [] := by
    simp [run_health_check, List.length_pos]
  refine ⟨?_, hbgp, hif, hlldp, rfl, rfl, rfl, rfl⟩
  rw [show (run_health_check bgp interfaces lldp).overall_healthy =
      ((run_health_check bgp interfaces lldp).bgp_healthy
        && (run_health_check bgp interfaces lldp).interfaces_healthy
        && (run_health_check bgp interfaces lldp).lldp_healthy) from rfl]
  simp only [Bool.and_eq_true, hbgp, hif, hlldp]
  tauto

/-! ### Claim C7: TopologyVerifier.verify_expected_links -/

/-- The `TopologyIssue` dataclass from `topology_verifier.py`. -/
structure TopologyIssue where
  issue_type : String
  description : String
  affected_devices : List String
  severity : String
deriving DecidableEq, Repr

/-- Membership test `device_b in self._adjacency.get(device_a, {}).values()`. -/
def adjacencyHas (adjacency : Smap (Smap String)) (a b : String) : Bool :=
  ((dget adjacency a).getD []).any fun p => p.2 == b

/-- The per-pair body of `verify_expected_links`: neither direction →
`missing_link`/critical; exactly one → `unidirectional`/high; both →
no issue. -/
def classify_pair (adjacency : Smap (Smap String))
    (device_a device_b : String) : Option TopologyIssue :=
  let a_to_b := adjacencyHas adjacency device_a device_b
  let b_to_a := adjacencyHas adjacency device_b device_a
  if !a_to_b && !b_to_a then
    some ⟨"missing_link",
      "Expected link between " ++ device_a ++ " and " ++ device_b ++
        " not found in LLDP data",
      [device_a, device_b], "critical"⟩
  else if a_to_b != b_to_a then
    some ⟨"unidirectional",
      "Unidirectional link between " ++ device_a ++ " and " ++ device_b ++
        ": only visible from one side",
      [device_a, device_b], "high"⟩
  else none

/-- Method `TopologyVerifier.verify_expected_links`: collect the per-pair
issues over *all* pairs; in strict mode raise a `TopologyError`
(carrying every collected issue description) iff any issue was found,
otherwise return the complete list. -/
def verify_expected_links (adjacency : Smap (Smap String)) (strict : Bool)
    (expected_links : List (String × String)) :
    Except (List String) (List TopologyIssue) :=
  let issues := expected_links.filterMap fun p =>
    classify_pair adjacency p.1 p.2
  if strict && !issues.isEmpty then .error (issues.map (·.description))
  else .ok issues

/-- C7: per pair, missing both directions gives one
`missing_link`/critical issue, exactly one direction gives one
`unidirectional`/high issue, both directions give none; non-strict mode
returns the complete per-pair issue list, and strict mode raises iff at
least one issue exists — only after every pair was processed, the error
carrying all collected issue descriptions. -/
theorem c7_verify_expected_links (adjacency : Smap (Smap String))
    (pairs : List (String × String)) (a b : String) :
    (adjacencyHas adjacency a b = false → adjacencyHas adjacency b a = false →
      classify_pair adjacency a b = some ⟨"missing_link",
        "Expected link between " ++ a ++ " and " ++ b ++
          " not found in LLDP data", [a, b], "critical"⟩)
    ∧ (adjacencyHas adjacency a b = true → adjacencyHas adjacency b a = false →
      classify_pair adjacency a b = some ⟨"unidirectional",
        "Unidirectional link between " ++ a ++ " and " ++ b ++
          ": only visible from one side", [a, b], "high"⟩)
    ∧ (adjacencyHas adjacency a b = false → adjacencyHas adjacency b a = true →
      classify_pair adjacency a b = some ⟨"unidirectional",
        "Unidirectional link between " ++ a ++ " and " ++ b ++
          ": only visible from one side", [a, b], "high"⟩)
    ∧ (adjacencyHas adjacency a b = true → adjacencyHas adjacency b a = true →
      classify_pair adjacency a b = none)
    ∧ (verify_expected_links adjacency false pairs =
        .ok (pairs.filterMap fun p => classify_pair adjacency p.1 p.2))
    ∧ ((pairs.filterMap fun p => classify_pair adjacency p.1 p.2) = [] →
        verify_expected_links adjacency true pairs = .ok [])
    ∧ ((pairs.filterMap fun p => classify_pair adjacency p.1 p.2) ≠ [] →
        verify_expected_links adjacency true pairs =
          .error ((pairs.filterMap fun p =>
            classify_pair adjacency p.1 p.2).map (·.description))) := by
  refine ⟨?_, ?_, ?_, ?_, ?_, ?_, ?_⟩
  · intro h₁ h₂; simp [classify_pair, h₁, h₂]
  · intro h₁ h₂; simp [classify_pair, h₁, h₂]
  · intro h₁ h₂; simp [classify_pair, h₁, h₂]
  · intro h₁ h₂; simp [classify_pair, h₁, h₂]
  · simp [verify_expected_links]
  · intro h; simp [verify_expected_links, h]
  · intro h
    simp only [verify_expected_links]
    rcases hl : pairs.filterMap (fun p => classify_pair adjacency p.1 p.2)
      with _ | ⟨x, xs⟩
    · exact absurd hl h
    · rw [hl]
      simp

/-- Witness for C7: a one-sided adjacency (`A` sees `B`, `B` does not
see `A`) yields the `unidirectional`/high issue. -/
theorem c7_witness :
    classify_pair [("A", [("eth0", "B")])] "A" "B" = some ⟨"unidirectional",
      "Unidirectional link between A and B: only visible from one side",
      ["A", "B"], "high"⟩ :=
  (c7_verify_expected_links [("A", [("eth0", "B")])] [] "A" "B").2.1 rfl rfl

/-! ### Claim C4: snapshot serialization round trip -/

/-- The JSON value space: the image of `json.dumps`/`json.loads`.  A
snapshot's stored Python values are JSON-representable records (Python
`None` is `Json.null`), so serialization is modelled on the JSON tree;
`json.loads(json.dumps(x)) = x` on this space is the library
boundary. -/
inductive Json : Type
  | null
  | bool (b : Bool)
  | num (n : Int)
  | str (s : String)
  | arr (elems : List Json)
  | obj (fields : List (String × Json))

/-- Method `Snapshot.to_json` (via `dataclasses.asdict`): one JSON object with
the nine dataclass fields in declaration order. -/
def snapshotToJson (s : Snapshot Json) : Json :=
  .obj [("snapshot_id", .str s.snapshot_id),
        ("device", .str s.device),
        ("timestamp", .str s.timestamp),
        ("bgp_neighbors", .obj s.bgp_neighbors),
        ("interfaces", .obj s.interfaces),
        ("routing_table", .obj s.routing_table),
        ("lldp_neighbors", .obj s.lldp_neighbors),
        ("evpn_routes", .obj s.evpn_routes),
        ("raw_data", .obj s.raw_data)]

/-- Read a JSON string field. -/
def asStr : Option Json → Option String
  | some (.str s) => some s
  | _ => none

/-- Read a JSON object field as a map. -/
def asObj : Option Json → Option (Smap Json)
  | some (.obj f) => some f
  | _ => none

/-- Method `Snapshot.from_json`: parse the payload and rebuild the dataclass
from its nine named fields (`cls(**payload)`); fails on a non-object or
ill-typed payload. -/
def snapshotFromJson : Json → Option (Snapshot Json)
  | .obj fields => do
      let sid ← asStr (dget fields "snapshot_id")
      let dev ← asStr (dget fields "device")
      let ts ← asStr (dget fields "timestamp")
      let bgp ← asObj (dget fields "bgp_neighbors")
      let ifs ← asObj (dget fields "interfaces")
      let rt ← asObj (dget fields "routing_table")
      let lldp ← asObj (dget fields "lldp_neighbors")
      let evpn ← asObj (dget fields "evpn_routes")
      let raw ← asObj (dget fields "raw_data")
      some ⟨sid, dev, ts, bgp, ifs, rt, lldp, evpn, raw⟩
  | _ => none

/-- C4: deserializing a snapshot's serialization —
`Snapshot.from_json(S.to_json())`, which is also what
`SnapshotEngine.load` does with the text written by `_persist` — yields
the snapshot back, equal in `snapshot_id`, `device` and all five
category maps (indeed in every field). -/
theorem c4_snapshot_round_trip (s : Snapshot Json) :
    snapshotFromJson (snapshotToJson s) = some s := rfl

/-! ### Claim C8: TopologyVerifier.assert_fully_connected -/

/-- The `Link` dataclass from `topology_verifier.py`. -/
structure Link where
  local_device : String
  local_interface : String
  remote_device : String
  remote_interface : String
deriving DecidableEq, Repr

/-- The undirected adjacency view built from the link list
(`undirected[l.local].add(l.remote); undirected[l.remote].add(l.local)`):
the neighbors of `v`. -/
def undirectedAdj (links : List Link) (v : String) : List String :=
  (links.filterMap fun l =>
    if l.local_device == v then some l.remote_device else none) ++
  (links.filterMap fun l =>
    if l.remote_device == v then some l.local_device else none)

/-- All endpoints mentioned by the link list. -/
def linkNodes (links : List Link) : Finset String :=
  (links.map (·.local_device)).toFinset ∪ (links.map (·.remote_device)).toFinset

/-- One undirected step: `b` is a neighbor of `a`. -/
def adjStep (links : List Link) (a b : String) : Prop :=
  b ∈ undirectedAdj links a

/-- Reachability in the undirected view of the link list. -/
def Reach (links : List Link) : String → String → Prop :=
  Relation.ReflTransGen (adjStep links)

/-- The breadth-first traversal of `assert_fully_connected`: pop the
queue head; skip it if already visited, else mark it visited and append
its not-yet-visited neighbors.  `bound` (all devices and link
endpoints, a superset of everything ever enqueued) drives
termination. -/
def bfs (adj : String → List String) (bound : Finset String) :
    Finset String → List String → Finset String
  | visited, [] => visited
  | visited, node :: rest =>
    if hv : node ∈ visited then bfs adj bound visited rest
    else if hn : node ∈ bound then
      bfs adj bound (insert node visited)
        (rest ++ (adj node).filter (fun w => w ∉ insert node visited))
    else bfs adj bound visited rest
  termination_by visited queue => ((bound \ visited).card, queue.length)
  decreasing_by
  · apply Prod.Lex.right
    simp
  · apply Prod.Lex.left
    rw [Finset.sdiff_insert]
    exact Finset.card_erase_lt_of_mem (Finset.mem_sdiff.mpr ⟨hn, hv⟩)
  · apply Prod.Lex.right
    simp

theorem bfs_nil (adj : String → List String) (bound : Finset String)
    (visited : Finset String) : bfs adj bound visited [] = visited := by
  rw [bfs]

theorem bfs_cons_visited (adj : String → List String) (bound : Finset String)
    (visited : Finset String) (node : String) (rest : List String)
    (hv : node ∈ visited) :
    bfs adj bound visited (node :: rest) = bfs adj bound visited rest := by
  rw [bfs]
  simp [hv]

theorem bfs_cons_new (adj : String → List String) (bound : Finset String)
    (visited : Finset String) (node : String) (rest : List String)
    (hv : node ∉ visited) (hn : node ∈ bound) :
    bfs adj bound visited (node :: rest) =
      bfs adj bound (insert node visited)
        (rest ++ (adj node).filter (fun w => w ∉ insert node visited)) := by
  rw [bfs]
  simp [hv, hn]

theorem bfs_cons_out (adj : String → List String) (bound : Finset String)
    (visited : Finset String) (node : String) (rest : List String)
    (hv : node ∉ visited) (hn : node ∉ bound) :
    bfs adj bound visited (node :: rest) = bfs adj bound visited rest := by
  rw [bfs]
  simp [hv, hn]

/-- The traversal only grows the visited set. -/
theorem bfs_subset (adj : String → List String) (bound : Finset String) :
    ∀ visited queue, visited ⊆ bfs adj bound visited queue := by
  intro visited queue
  induction visited, queue using bfs.induct adj bound with
  | case1 visited => rw [bfs_nil]
  | case2 visited node rest hv ih =>
    rw [bfs_cons_visited _ _ _ _ _ hv]; exact ih
  | case3 visited node rest hv hn ih =>
    rw [bfs_cons_new _ _ _ _ _ hv hn]
    exact (Finset.subset_insert node visited).trans ih
  | case4 visited node rest hv hn ih =>
    rw [bfs_cons_out _ _ _ _ _ hv hn]; exact ih

/-- Soundness: starting from reachable-only state, everything visited is
reachable from `start`. -/
theorem bfs_sound (adj : String → List String) (bound : Finset String)
    (start : String) :
    ∀ visited queue,
      (∀ v ∈ visited, Relation.ReflTransGen (fun a b => b ∈ adj a) start v) →
      (∀ q ∈ queue, Relation.ReflTransGen (fun a b => b ∈ adj a) start q) →
      ∀ x ∈ bfs adj bound visited queue,
        Relation.ReflTransGen (fun a b => b ∈ adj a) start x := by
  intro visited queue
  induction visited, queue using bfs.induct adj bound with
  | case1 visited =>
    intro hv _ x hx
    rw [bfs_nil] at hx
    exact hv x hx
  | case2 visited node rest hmem ih =>
    intro hv hq x hx
    rw [bfs_cons_visited _ _ _ _ _ hmem] at hx
    exact ih hv (fun q h => hq q (List.mem_cons_of_mem _ h)) x hx
  | case3 visited node rest hmem hbound ih =>
    intro hv hq x hx
    rw [bfs_cons_new _ _ _ _ _ hmem hbound] at hx
    have hnode := hq node (List.mem_cons_self node rest)
    refine ih ?_ ?_ x hx
    · intro v hv'
      rcases Finset.mem_insert.mp hv' with rfl | h
      · exact hnode
      · exact hv v h
    · intro q h
      rcases List.mem_append.mp h with h' | h'
      · exact hq q (List.mem_cons_of_mem _ h')
      · exact hnode.tail (List.mem_filter.mp h').1
  | case4 visited node rest hmem hbound ih =>
    intro hv hq x hx
    rw [bfs_cons_out _ _ _ _ _ hmem hbound] at hx
    exact ih hv (fun q h => hq q (List.mem_cons_of_mem _ h)) x hx

/-- Every enqueued in-bound node ends up visited. -/
theorem bfs_queue_mem (adj : String → List String) (bound : Finset String)
    (Hrange : ∀ v w, w ∈ adj v → w ∈ bound) :
    ∀ visited queue, (∀ q ∈ queue, q ∈ bound) →
      ∀ q ∈ queue, q ∈ bfs adj bound visited queue := by
  intro visited queue
  induction visited, queue using bfs.induct adj bound with
  | case1 visited =>
    intro _ q hq
    cases hq
  | case2 visited node rest hmem ih =>
    intro hb q hq
    rw [bfs_cons_visited _ _ _ _ _ hmem]
    rcases List.mem_cons.mp hq with rfl | h
    · exact bfs_subset adj bound visited rest hmem
    · exact ih (fun q' h' => hb q' (List.mem_cons_of_mem _ h')) q h
  | case3 visited node rest hmem hbound ih =>
    intro hb q hq
    rw [bfs_cons_new _ _ _ _ _ hmem hbound]
    rcases List.mem_cons.mp hq with rfl | h
    · exact bfs_subset _ _ _ _ (Finset.mem_insert_self q visited)
    · refine ih ?_ q (List.mem_append_left _ h)
      intro q' h'
      rcases List.mem_append.mp h' with h'' | h''
      · exact hb q' (List.mem_cons_of_mem _ h'')
      · exact Hrange node q' (List.mem_filter.mp h'').1
  | case4 visited node rest hmem hbound ih =>
    intro hb q hq
    exact absurd (hb node (List.mem_cons_self node rest)) hbound

/-- On termination the visited set is closed under adjacency, given the
invariant that neighbors of visited nodes are visited or queued. -/
theorem bfs_closed (adj : String → List String) (bound : Finset String)
    (Hrange : ∀ v w, w ∈ adj v → w ∈ bound) :
    ∀ visited queue, (∀ q ∈ queue, q ∈ bound) →
      (∀ v ∈ visited, ∀ w ∈ adj v, w ∈ visited ∨ w ∈ queue) →
      ∀ v ∈ bfs adj bound visited queue, ∀ w ∈ adj v,
        w ∈ bfs adj bound visited queue := by
  intro visited queue
  induction visited, queue using bfs.induct adj bound with
  | case1 visited =>
    intro _ hI v hv w hw
    rw [bfs_nil] at hv ⊢
    rcases hI v hv w hw with h | h
    · exact h
    · cases h
  | case2 visited node rest hmem ih =>
    intro hb hI v hv w hw
    rw [bfs_cons_visited _ _ _ _ _ hmem] at hv ⊢
    refine ih (fun q h => hb q (List.mem_cons_of_mem _ h)) ?_ v hv w hw
    intro v' hv' w' hw'
    rcases hI v' hv' w' hw' with h | h
    · exact Or.inl h
    · rcases List.mem_cons.mp h with rfl | h'
      · exact Or.inl hmem
      · exact Or.inr h'
  | case3 visited node rest hmem hbound ih =>
    intro hb hI v hv w hw
    rw [bfs_cons_new _ _ _ _ _ hmem hbound] at hv ⊢
    refine ih ?_ ?_ v hv w hw
    · intro q h
      rcases List.mem_append.mp h with h' | h'
      · exact hb q (List.mem_cons_of_mem _ h')
      · exact Hrange node q (List.mem_filter.mp h').1
    · intro v' hv' w' hw'
      rcases Finset.mem_insert.mp hv' with rfl | h'
      · by_cases hw'' : w' ∈ insert v' visited
        · exact Or.inl hw''
        · exact Or.inr (List.mem_append_right _
            (List.mem_filter.mpr ⟨hw', by simpa using hw''⟩))
      · rcases hI v' h' w' hw' with h'' | h''
        · exact Or.inl (Finset.mem_insert_of_mem h'')
        · rcases List.mem_cons.mp h'' with rfl | h₃
          · exact Or.inl (Finset.mem_insert_self _ _)
          · exact Or.inr (List.mem_append_left _ h₃)
  | case4 visited node rest hmem hbound ih =>
    intro hb hI v hv w hw
    rw [bfs_cons_out _ _ _ _ _ hmem hbound] at hv ⊢
    refine ih (fun q h => hb q (List.mem_cons_of_mem _ h)) ?_ v hv w hw
    intro v' hv' w' hw'
    rcases hI v' hv' w' hw' with h | h
    · exact Or.inl h
    · rcases List.mem_cons.mp h with rfl | h'
      · exact absurd (Hrange v' w' hw') hbound
      · exact Or.inr h'

/-- BFS correctness: started from `start`, the visited set is exactly
the set of nodes reachable from `start`. -/
theorem bfs_mem_iff (adj : String → List String) (bound : Finset String)
    (start : String) (Hrange : ∀ v w, w ∈ adj v → w ∈ bound)
    (hstart : start ∈ bound) (x : String) :
    x ∈ bfs adj bound ∅ [start] ↔
      Relation.ReflTransGen (fun a b => b ∈ adj a) start x := by
  have hq : ∀ q ∈ ([start] : List String), q ∈ bound := by
    intro q hq
    rw [List.mem_singleton] at hq
    subst hq
    exact hstart
  constructor
  · intro hx
    refine bfs_sound adj bound start ∅ [start]
      (fun v hv => absurd hv (Finset.not_mem_empty v)) ?_ x hx
    intro q hq'
    rw [List.mem_singleton] at hq'
    subst hq'
    exact Relation.ReflTransGen.refl
  · intro hx
    have hstart_mem : start ∈ bfs adj bound ∅ [start] :=
      bfs_queue_mem adj bound Hrange ∅ [start] hq start (List.mem_singleton_self start)
    have hcl := bfs_closed adj bound Hrange ∅ [start] hq
      (fun v hv => absurd hv (Finset.not_mem_empty v))
    induction hx with
    | refl => exact hstart_mem
    | tail hab hbc ih => exact hcl _ ih _ hbc

/-- One undirected step is symmetric. -/
theorem adjStep_symm (links : List Link) (a b : String)
    (h : adjStep links a b) : adjStep links b a := by
  unfold adjStep undirectedAdj at h ⊢
  rcases List.mem_append.mp h with h' | h'
  · rcases List.mem_filterMap.mp h' with ⟨l, hl, hval⟩
    by_cases hc : l.local_device == a
    · rw [if_pos hc] at hval
      refine List.mem_append_right _ (List.mem_filterMap.mpr ⟨l, hl, ?_⟩)
      rw [Option.some.injEq] at hval
      rw [if_pos (by simp [hval])]
      rw [Option.some.injEq]
      exact (beq_iff_eq.mp hc)
    · rw [if_neg hc] at hval
      cases hval
  · rcases List.mem_filterMap.mp h' with ⟨l, hl, hval⟩
    by_cases hc : l.remote_device == a
    · rw [if_pos hc] at hval
      refine List.mem_append_left _ (List.mem_filterMap.mpr ⟨l, hl, ?_⟩)
      rw [Option.some.injEq] at hval
      rw [if_pos (by simp [hval])]
      rw [Option.some.injEq]
      exact (beq_iff_eq.mp hc)
    · rw [if_neg hc] at hval
      cases hval

/-- Undirected reachability is symmetric. -/
theorem reach_symm (links : List Link) (a b : String)
    (h : Reach links a b) : Reach links b a := by
  induction h with
  | refl => exact Relation.ReflTransGen.refl
  | tail _ hbc ih => exact Relation.ReflTransGen.head (adjStep_symm links _ _ hbc) ih

instance : IsAntisymm String keyLe :=
  ⟨fun a b h₁ h₂ =>
    le_antisymm ((keyLe_iff a b).mp h₁) ((keyLe_iff b a).mp h₂)⟩

/-- Method `TopologyVerifier.assert_fully_connected`, as a function of the
graph state (device set and link list), the strict flag, and the start
device drawn by `next(iter(self._devices))` (passed explicitly, with the
hypothesis that it belongs to the device set). -/
def assert_fully_connected (devices : Finset String) (links : List Link)
    (strict : Bool) (start : String) :
    Except String (Option TopologyIssue) :=
  if devices = ∅ then .ok none
  else
    let visited := bfs (undirectedAdj links) (devices ∪ linkNodes links) ∅ [start]
    let unreachable := devices \ visited
    if unreachable = ∅ then .ok none
    else
      let names := unreachable.sort keyLe
      let issue : TopologyIssue :=
        ⟨"disconnected",
          "Topology graph is disconnected. Unreachable devices: " ++
            String.intercalate ", " names,
          names, "critical"⟩
      if strict then .error issue.description else .ok (some issue)

/-- C8: the traversal returns no issue iff every device is reachable
from every other in the undirected view (the empty device set is
vacuously connected); otherwise — for any start device the code may
draw — exactly one `disconnected`/critical issue is produced (an error
in strict mode) whose affected devices are the devices unreachable from
the start, in sorted order. -/
theorem c8_fully_connected (devices : Finset String) (links : List Link)
    (strict : Bool) (start : String) :
    (assert_fully_connected ∅ links strict start = .ok none)
    ∧ (start ∈ devices →
        ((assert_fully_connected devices links strict start = .ok none ↔
            ∀ a ∈ devices, ∀ b ∈ devices, Reach links a b)
        ∧ (¬ (∀ a ∈ devices, ∀ b ∈ devices, Reach links a b) →
            ∃ names : List String,
              assert_fully_connected devices links false start =
                .ok (some ⟨"disconnected",
                  "Topology graph is disconnected. Unreachable devices: " ++
                    String.intercalate ", " names, names, "critical"⟩)
              ∧ assert_fully_connected devices links true start =
                  .error ("Topology graph is disconnected. Unreachable devices: " ++
                    String.intercalate ", " names)
              ∧ names ≠ []
              ∧ names.Sorted (· ≤ ·)
              ∧ ∀ d, d ∈ names ↔ d ∈ devices ∧ ¬ Reach links start d))) := by
  constructor
  · simp [assert_fully_connected]
  intro hstart
  have hdev : devices ≠ ∅ := Finset.ne_empty_of_mem hstart
  have Hrange : ∀ v w, w ∈ undirectedAdj links v →
      w ∈ devices ∪ linkNodes links := by
    intro v w hw
    apply Finset.mem_union_right
    unfold undirectedAdj at hw
    unfold linkNodes
    rcases List.mem_append.mp hw with h | h
    · rcases List.mem_filterMap.mp h with ⟨l, hl, hval⟩
      by_cases hc : l.local_device == v
      · rw [if_pos hc, Option.some.injEq] at hval
        exact Finset.mem_union_right _
          (List.mem_toFinset.mpr (List.mem_map.mpr ⟨l, hl, hval⟩))
      · rw [if_neg hc] at hval
        cases hval
    · rcases List.mem_filterMap.mp h with ⟨l, hl, hval⟩
      by_cases hc : l.remote_device == v
      · rw [if_pos hc, Option.some.injEq] at hval
        exact Finset.mem_union_left _
          (List.mem_toFinset.mpr (List.mem_map.mpr ⟨l, hl, hval⟩))
      · rw [if_neg hc] at hval
        cases hval
  have hstart_bound : start ∈ devices ∪ linkNodes links :=
    Finset.mem_union_left _ hstart
  have hmem : ∀ x,
      x ∈ bfs (undirectedAdj links) (devices ∪ linkNodes links) ∅ [start] ↔
        Reach links start x :=
    fun x => bfs_mem_iff (undirectedAdj links) (devices ∪ linkNodes links)
      start Hrange hstart_bound x
  have hpair : (∀ d ∈ devices, Reach links start d) ↔
      (∀ a ∈ devices, ∀ b ∈ devices, Reach links a b) :=
    ⟨fun h a ha b hb => (reach_symm links start a (h a ha)).trans (h b hb),
      fun h d hd => h start hstart d hd⟩
  have hconn :
      (devices \ bfs (undirectedAdj links) (devices ∪ linkNodes links) ∅ [start]
          = ∅) ↔
        ∀ a ∈ devices, ∀ b ∈ devices, Reach links a b := by
    rw [Finset.sdiff_eq_empty_iff_subset]
    constructor
    · intro hsub
      exact hpair.mp fun d hd => (hmem d).mp (hsub hd)
    · intro h d hd
      exact (hmem d).mpr (hpair.mpr h d hd)
  constructor
  · -- the `.ok none ↔ connected` equivalence
    by_cases hU : devices \
        bfs (undirectedAdj links) (devices ∪ linkNodes links) ∅ [start] = ∅
    · constructor
      · intro _
        exact hconn.mp hU
      · intro _
        simp only [assert_fully_connected, if_neg hdev]
        rw [if_pos hU]
    · constructor
      · intro hres
        exfalso
        simp only [assert_fully_connected, if_neg hdev] at hres
        rw [if_neg hU] at hres
        rcases hs : strict with _ | _
        · rw [hs] at hres
          simp at hres
        · rw [hs] at hres
          simp at hres
      · intro h
        exact absurd (hconn.mpr h) hU
  · -- the disconnected case
    intro hnc
    have hU : devices \
        bfs (undirectedAdj links) (devices ∪ linkNodes links) ∅ [start] ≠ ∅ :=
      fun h => hnc (hconn.mp h)
    refine ⟨(devices \
        bfs (undirectedAdj links) (devices ∪ linkNodes links) ∅ [start]).sort
        keyLe, ?_, ?_, ?_, ?_, ?_⟩
    · simp only [assert_fully_connected, if_neg hdev]
      rw [if_neg hU]
      simp
    · simp only [assert_fully_connected, if_neg hdev]
      rw [if_neg hU]
      simp
    · intro h
      rcases Finset.nonempty_iff_ne_empty.mpr hU with ⟨x, hx⟩
      have hx2 := (Finset.mem_sort keyLe).mpr hx
      rw [h] at hx2
      cases hx2
    · exact (Finset.sort_sorted keyLe _).imp fun h => (keyLe_iff _ _).mp h
    · intro d
      rw [Finset.mem_sort, Finset.mem_sdiff]
      constructor
      · rintro ⟨h₁, h₂⟩
        exact ⟨h₁, fun hr => h₂ ((hmem d).mpr hr)⟩
      · rintro ⟨h₁, h₂⟩
        exact ⟨h₁, fun hv => h₂ ((hmem d).mp hv)⟩

/-- The `A`–`B` link of the spec's connectivity example. -/
def linkAB : Link := ⟨"A", "eth0", "B", "eth1"⟩

/-- The `B`–`C` link of the spec's connectivity example. -/
def linkBC : Link := ⟨"B", "eth2", "C", "eth3"⟩

theorem c8_witness :
    (assert_fully_connected {"A", "B", "C"} [linkAB, linkBC] false "A" = .ok none)
    ∧ ∃ names : List String,
        assert_fully_connected {"A", "B", "C"} [linkAB] false "A" =
          .ok (some ⟨"disconnected",
            "Topology graph is disconnected. Unreachable devices: " ++
              String.intercalate ", " names, names, "critical"⟩)
        ∧ "C" ∈ names ∧ "A" ∉ names ∧ "B" ∉ names := by
  have hmem : ("A" : String) ∈ ({"A", "B", "C"} : Finset String) := by decide
  constructor
  · refine ((c8_fully_connected {"A", "B", "C"} [linkAB, linkBC] false "A").2
      hmem).1.mpr ?_
    have hAB : adjStep [linkAB, linkBC] "A" "B" := by
      show ("B" : String) ∈ undirectedAdj [linkAB, linkBC] "A"
      decide
    have hBA : adjStep [linkAB, linkBC] "B" "A" := by
      show ("A" : String) ∈ undirectedAdj [linkAB, linkBC] "B"
      decide
    have hBC : adjStep [linkAB, linkBC] "B" "C" := by
      show ("C" : String) ∈ undirectedAdj [linkAB, linkBC] "B"
      decide
    have hCB : adjStep [linkAB, linkBC] "C" "B" := by
      show ("B" : String) ∈ undirectedAdj [linkAB, linkBC] "C"
      decide
    intro a ha b hb
    simp only [Finset.mem_insert, Finset.mem_singleton] at ha hb
    rcases ha with rfl | rfl | rfl <;> rcases hb with rfl | rfl | rfl
    · exact Relation.ReflTransGen.refl
    · exact Relation.ReflTransGen.single hAB
    · exact (Relation.ReflTransGen.single hAB).tail hBC
    · exact Relation.ReflTransGen.single hBA
    · exact Relation.ReflTransGen.refl
    · exact Relation.ReflTransGen.single hBC
    · exact (Relation.ReflTransGen.single hCB).tail hBA
    · exact Relation.ReflTransGen.single hCB
    · exact Relation.ReflTransGen.refl
  · -- removing the B–C link disconnects C
    have hinv : ∀ x, Reach [linkAB] "A" x → x = "A" ∨ x = "B" := by
      intro x hx
      induction hx with
      | refl => exact Or.inl rfl
      | tail hab hbc ih =>
        rcases ih with rfl | rfl
        · have hadj : undirectedAdj [linkAB] "A" = ["B"] := by decide
          rw [adjStep, hadj, List.mem_singleton] at hbc
          exact Or.inr hbc
        · have hadj : undirectedAdj [linkAB] "B" = ["A"] := by decide
          rw [adjStep, hadj, List.mem_singleton] at hbc
          exact Or.inl hbc
    have hnc : ¬ ∀ a ∈ ({"A", "B", "C"} : Finset String),
        ∀ b ∈ ({"A", "B", "C"} : Finset String), Reach [linkAB] a b := by
      intro hall
      have hr := hall "A" (by decide) "C" (by decide)
      rcases hinv "C" hr with h | h <;> exact absurd h (by decide)
    obtain ⟨names, h₁, _, _, _, hchar⟩ :=
      ((c8_fully_connected {"A", "B", "C"} [linkAB] false "A").2 hmem).2 hnc
    refine ⟨names, h₁, ?_, ?_, ?_⟩
    · refine (hchar "C").mpr ⟨by decide, fun hr => ?_⟩
      rcases hinv "C" hr with h | h <;> exact absurd h (by decide)
    · intro hA
      exact ((hchar "A").mp hA).2 Relation.ReflTransGen.refl
    · intro hB
      refine ((hchar "B").mp hB).2 (Relation.ReflTransGen.single ?_)
      show ("B" : String) ∈ undirectedAdj [linkAB] "A"
      decide

end NetAuto
